import Mathlib

/-!
# Verification of the top-level-code scanner (`scripts/check-toplevel-code.py`)

Shallow embedding of the per-line scanning loop of the Python script
`scripts/check-toplevel-code.py`, together with its file discovery and
report rendering, and theorems settling the specification claims.

Lines are modelled as `List Char`; the per-file mutable state
(`brace_depth`, `in_multiline_comment`, `issues`) becomes the explicit
`ScanState` record threaded through `processLine`.
-/

/-- Shorthand: the character list of a string literal. -/
def toL (s : String) : List Char := s.toList

/-- The set of characters stripped by Python `str.strip()` and matched by
the regex class `\s` (restricted to the ASCII range, which is all the
source script ever feeds it). -/
def isPySpace (c : Char) : Bool :=
  c = ' ' || c = '\t' || c = '\n' || c = '\r' || c = '\x0b' || c = '\x0c'

/-- Python `str.strip()`: drop leading and trailing whitespace. -/
def pstrip (l : List Char) : List Char :=
  ((l.dropWhile isPySpace).reverse.dropWhile isPySpace).reverse

/-- Python `pat in s`: substring containment test. -/
def containsSub (pat : List Char) : List Char → Bool
  | [] => pat.isEmpty
  | c :: rest => pat.isPrefixOf (c :: rest) || containsSub pat rest

/-- Worker for `maskStrings`.  In mode `false` it copies characters until a
`"` opens a candidate string literal; in mode `true` it accumulates the
literal's body in `acc` (reversed), emitting `""` if a closing quote
arrives and restoring the unmatched tail verbatim if the input ends
first.  This is exactly the effect of Python's
`re.sub(r'"[^"]*"', '""', s)`. -/
def maskGo : Bool → List Char → List Char → List Char
  | false, _, [] => []
  | false, acc, c :: rest =>
    if c = '"' then maskGo true [] rest else c :: maskGo false acc rest
  | true, acc, [] => '"' :: acc.reverse
  | true, acc, c :: rest =>
    if c = '"' then '"' :: '"' :: maskGo false [] rest
    else maskGo true (c :: acc) rest

/-- `re.sub(r'"[^"]*"', '""', s)` from line 34 of the script: replace every
complete double-quoted span by an empty pair of quotes. -/
def maskStrings (l : List Char) : List Char := maskGo false [] l

/-- `afterPrefix pre l` is `some rest` when `l = pre ++ rest`, else `none`;
the elementary step of an anchored (`re.match`) pattern. -/
def afterPrefix : List Char → List Char → Option (List Char)
  | [], l => some l
  | _ :: _, [] => none
  | p :: ps, c :: cs => if p = c then afterPrefix ps cs else none

/-- Anchored regex of shape `^kw X` where `X` is a single-character class
(`\s` or `\w`): the keyword followed by one character satisfying `p`. -/
def kwThen (kw : List Char) (p : Char → Bool) (l : List Char) : Bool :=
  match afterPrefix kw l with
  | some (c :: _) => p c
  | _ => false

/-- Anchored regex of shape `^kw\s*X`: the keyword, any run of whitespace,
then one character satisfying `p`. -/
def kwWsThen (kw : List Char) (p : Char → Bool) (l : List Char) : Bool :=
  match afterPrefix kw l with
  | some r =>
    match r.dropWhile isPySpace with
    | c :: _ => p c
    | [] => false
  | none => false

/-- The character class `\w` of the script's `^Task\.\w` pattern
(ASCII range). -/
def isWordChar (c : Char) : Bool := c.isAlphanum || c = '_'

def isLParen (c : Char) : Bool := c = '('
def isLBrace (c : Char) : Bool := c = '\x7b'

/-- `any(re.match(p, stripped) for p in exec_patterns)` — the ordered
executable-statement pattern list of lines 39–57 of the script, each
regex translated to its prefix-matcher. -/
def isExec (s : List Char) : Bool :=
  kwWsThen (toL "print") isLParen s ||
  kwWsThen (toL "debugPrint") isLParen s ||
  kwWsThen (toL "Task") isLBrace s ||
  kwThen (toL "Task.") isWordChar s ||
  kwThen (toL "if") isPySpace s ||
  kwThen (toL "guard") isPySpace s ||
  kwThen (toL "switch") isPySpace s ||
  kwThen (toL "for") isPySpace s ||
  kwThen (toL "while") isPySpace s ||
  kwThen (toL "repeat") isPySpace s ||
  kwWsThen (toL "do") isLBrace s ||
  kwThen (toL "return") isPySpace s ||
  kwThen (toL "try") isPySpace s ||
  kwThen (toL "await") isPySpace s ||
  kwWsThen (toL "fatalError") isLParen s ||
  kwWsThen (toL "precondition") isLParen s ||
  kwWsThen (toL "assert") isLParen s

/-- The per-file mutable state of the scan loop: `brace_depth`,
`in_multiline_comment` and the accumulated `issues` list. -/
structure ScanState where
  braceDepth : Int
  inComment : Bool
  issues : List (Nat × List Char)
deriving DecidableEq, Repr

def slashStar : List Char := ['/', '*']
def starSlash : List Char := ['*', '/']
def slashSlash : List Char := ['/', '/']

/-- The body of the `for i, line in enumerate(lines, 1)` loop of the
script (lines 19–64), one line at a time. -/
def processLine (st : ScanState) (i : Nat) (line : List Char) : ScanState :=
  let stripped := pstrip line
  let inC1 := st.inComment || containsSub slashStar stripped
  if containsSub starSlash stripped then
    { st with inComment := false }
  else if inC1 then
    { st with inComment := inC1 }
  else if slashSlash.isPrefixOf stripped then
    st
  else if stripped.isEmpty then
    st
  else
    let codeLine := maskStrings stripped
    let opens := codeLine.count '\x7b'
    let closes := codeLine.count '\x7d'
    let issues' :=
      if st.braceDepth = 0 && isExec stripped then
        st.issues ++ [(i, stripped.take 120)]
      else st.issues
    { braceDepth := st.braceDepth + (opens : Int) - (closes : Int),
      inComment := st.inComment,
      issues := issues' }

/-- Run the loop from a given state and (1-based) line number. -/
def scanFrom (st : ScanState) (i : Nat) : List (List Char) → ScanState
  | [] => st
  | l :: ls => scanFrom (processLine st i l) (i + 1) ls

/-- Scan one file's lines with the freshly reset per-file state
(`brace_depth = 0`, `in_multiline_comment = False`, `issues = []`). -/
def scanLines (lines : List (List Char)) : ScanState :=
  scanFrom ⟨0, false, []⟩ 1 lines

/-- Python `content.split('\n')`. -/
def splitLines : List Char → List (List Char)
  | [] => [[]]
  | c :: rest =>
    let ls := splitLines rest
    if c = '\n' then [] :: ls
    else
      match ls with
      | [] => [[c]]
      | h :: t => (c :: h) :: t

/-- Scan a whole file content, as the script does after `fh.read()`. -/
def scanFile (content : List Char) : ScanState := scanLines (splitLines content)

/-! ## File discovery and report rendering -/

/-- Lexicographic comparison of paths by character code points, the order
Python `sorted` uses on the path strings. -/
def lexLe : List Char → List Char → Bool
  | [], _ => true
  | _ :: _, [] => false
  | a :: as, b :: bs => if a < b then true else if b < a then false else lexLe as bs

/-- `lexLe` as a `Prop`-valued relation, for the sorting lemmas. -/
abbrev lexR (a b : List Char) : Prop := lexLe a b = true

instance : DecidableRel lexR := fun a b => inferInstanceAs (Decidable (lexLe a b = true))

/-- `sorted(swift_files)` of line 10 of the script. -/
def sortPaths (paths : List (List Char)) : List (List Char) :=
  List.insertionSort lexR paths

/-- `f.endswith('.swift')` of line 7 of the script, on the file's path. -/
def hasSwiftSuffix (p : List Char) : Bool := (toL ".swift").isSuffixOf p

/-- Decimal rendering of the 1-based line number in an f-string. -/
def natDigits (n : Nat) : List Char := (Nat.repr n).toList

/-- `print(f'*** ISSUES IN: {filepath} ***')` of line 67. -/
def headerLine (p : List Char) : List Char :=
  toL "*** ISSUES IN: " ++ p ++ toL " ***"

/-- `print(f'  Line {line_no}: {text}')` of line 69. -/
def issueLine (n : Nat) (t : List Char) : List Char :=
  toL "  Line " ++ natDigits n ++ toL ": " ++ t

/-- The text of the final `print('\n--- Script complete ---')` (the
leading `\n` makes it emit an empty line followed by this marker). -/
def markerLine : List Char := toL "--- Script complete ---"

/-- The output block of one file (lines 66–69 of the script): nothing if
the file produced no issue, else a header plus one line per issue. -/
def fileBlock (p : List Char) (lines : List (List Char)) : List (List Char) :=
  let iss := (scanLines lines).issues
  if iss.isEmpty then []
  else headerLine p :: iss.map (fun x => issueLine x.1 x.2)

/-- The whole stdout of the script as a list of lines, for a list of
(path, file lines) pairs in discovery order: the per-file blocks followed
by the empty line and completion marker of the final `print`. -/
def reportLines (files : List (List Char × List (List Char))) : List (List Char) :=
  (files.flatMap fun pf => fileBlock pf.1 pf.2) ++ [[], markerLine]

/-- The file system as the scanner sees it.  `rootEntries` is the
flattened result of walking the root directory: `none` when the root
directory itself cannot be read (in which case `os.walk` with its default
`onerror=None` silently yields nothing), `some ps` the file paths it
reaches otherwise.  `contents` maps a path to its content, `none` when
`open`/`read` on that file raises. -/
structure FileSys where
  rootEntries : Option (List (List Char))
  contents : List Char → Option (List Char)

/-- Open and scan each discovered file in order; a failing `open` raises,
modelled as `Except.error`. -/
def scanAll (fsContents : List Char → Option (List Char)) :
    List (List Char) → Except Unit (List (List Char))
  | [] => Except.ok []
  | p :: ps =>
    match fsContents p with
    | none => Except.error ()
    | some content =>
      match scanAll fsContents ps with
      | Except.error e => Except.error e
      | Except.ok rest => Except.ok (fileBlock p (splitLines content) ++ rest)

/-- The whole script: walk the root (swallowing a root read failure, as
`os.walk` does by default), filter `.swift` files, sort, scan each file,
and emit the report followed by the completion marker.  An unreadable
individual file propagates as an uncaught exception (`Except.error`). -/
def runScanner (fsys : FileSys) : Except Unit (List (List Char)) :=
  let paths := (fsys.rootEntries.getD []).filter hasSwiftSuffix
  match scanAll fsys.contents (sortPaths paths) with
  | Except.error e => Except.error e
  | Except.ok blocks => Except.ok (blocks ++ [[], markerLine])

/-! ## Characterization lemmas for the per-line step -/

/-- Exactly when and how `processLine` extends the issue list: the line is
classified (and an issue recorded on a pattern match) precisely when it
contains no `*/`, the tracker is outside block comments, it contains no
`/*`, it is not a full-line `//` comment, it is not blank, and the
pre-update depth is 0. -/
theorem processLine_issues_eq (st : ScanState) (i : Nat) (line : List Char) :
    (processLine st i line).issues =
      if containsSub starSlash (pstrip line) = false ∧
         st.inComment = false ∧
         containsSub slashStar (pstrip line) = false ∧
         slashSlash.isPrefixOf (pstrip line) = false ∧
         (pstrip line).isEmpty = false ∧
         st.braceDepth = 0 ∧
         isExec (pstrip line) = true
      then st.issues ++ [(i, (pstrip line).take 120)]
      else st.issues := by
  simp only [processLine]
  split_ifs <;> simp_all

/-- Exactly when and how `processLine` changes the depth counter: skipped
lines (comment-consumed, `//`, blank) leave it untouched, and processed
lines add the brace counts of the string-masked trimmed line. -/
theorem processLine_depth_eq (st : ScanState) (i : Nat) (line : List Char) :
    (processLine st i line).braceDepth =
      if containsSub starSlash (pstrip line) = true ∨
         st.inComment = true ∨
         containsSub slashStar (pstrip line) = true ∨
         slashSlash.isPrefixOf (pstrip line) = true ∨
         (pstrip line).isEmpty = true
      then st.braceDepth
      else st.braceDepth + ((maskStrings (pstrip line)).count '\x7b' : Int)
             - ((maskStrings (pstrip line)).count '\x7d' : Int) := by
  simp only [processLine]
  split_ifs <;> simp_all

/-! ## Claims -/

/-- Claim C1 (corrected): a line is submitted to executable-statement
classification iff it contains no block-comment-close token, the tracker
is not inside a block comment and the line contains no
block-comment-open token, the trimmed line is not a full-line `//`
comment, is not blank, and the pre-update depth is exactly 0; an issue
`(i, first 120 chars)` is recorded iff additionally a pattern matches.
In particular a line at depth ≥ 1 (or any nonzero depth) is never
reported. -/
theorem claim_C1 (st : ScanState) (i : Nat) (line : List Char) :
    (processLine st i line).issues =
      if containsSub starSlash (pstrip line) = false ∧
         st.inComment = false ∧
         containsSub slashStar (pstrip line) = false ∧
         slashSlash.isPrefixOf (pstrip line) = false ∧
         (pstrip line).isEmpty = false ∧
         st.braceDepth = 0 ∧
         isExec (pstrip line) = true
      then st.issues ++ [(i, (pstrip line).take 120)]
      else st.issues :=
  processLine_issues_eq st i line

/-- Claim C1 counterexample: the single-line file `print("hi") */` refutes
the claim as stated.  The tracker is never inside a block comment, the
trimmed line is not a `//` comment, is not blank, and the pre-update
depth is 0 — so by the claim the line would be classified, and it matches
the `^print\s*\(` pattern — yet the scan records no issue, because the
code consumes any line containing a block-comment-close token. -/
theorem claim_C1_counterexample :
    (scanLines [toL "print(\"hi\") */"]).issues = [] ∧
    (pstrip (toL "print(\"hi\") */")).isEmpty = false ∧
    slashSlash.isPrefixOf (pstrip (toL "print(\"hi\") */")) = false ∧
    isExec (pstrip (toL "print(\"hi\") */")) = true := by decide

/-- Claim C2: scanning the 7-line file of the spec's concrete scenario
yields exactly one issue, at line 7, with text `print("top level")`; and
the depth before line 4 is 2 (which is why line 4 is not reported). -/
theorem claim_C2 :
    (scanLines [toL "import Module", toL "struct Foo \x7b",
        toL "    func bar() \x7b", toL "        print(\"inside\")",
        toL "    \x7d", toL "\x7d", toL "print(\"top level\")"]).issues =
      [(7, toL "print(\"top level\")")] ∧
    (scanFrom ⟨0, false, []⟩ 1 [toL "import Module", toL "struct Foo \x7b",
        toL "    func bar() \x7b"]).braceDepth = 2 := by decide

/-- Claim C3 (corrected): the depth update of a processed line counts
exactly the braces of the trimmed line after string masking, and lines
consumed as comments (or blank lines) contribute no depth update. -/
theorem claim_C3 (st : ScanState) (i : Nat) (line : List Char) :
    (processLine st i line).braceDepth =
      if containsSub starSlash (pstrip line) = true ∨
         st.inComment = true ∨
         containsSub slashStar (pstrip line) = true ∨
         slashSlash.isPrefixOf (pstrip line) = true ∨
         (pstrip line).isEmpty = true
      then st.braceDepth
      else st.braceDepth + ((maskStrings (pstrip line)).count '\x7b' : Int)
             - ((maskStrings (pstrip line)).count '\x7d' : Int) :=
  processLine_depth_eq st i line

/-- Claim C3 counterexample: the claim's universal statement — braces
inside comments never change `depth` — is false.  In the single-line file
`x() // }` the only brace sits inside a trailing `//` line comment, yet
the scan ends with depth `-1` instead of `0`: the masking removes string
bodies only, and a trailing comment on a code line is not stripped. -/
theorem claim_C3_counterexample :
    (scanLines [toL "x() // \x7d"]).braceDepth = -1 := by decide

/-- Claim C4: a line containing a block-comment-close token makes the
tracker exit block-comment state and is fully consumed: the depth and the
issue list are unchanged, whatever braces or statement text the line
carries. -/
theorem claim_C4 (st : ScanState) (i : Nat) (line : List Char)
    (h : containsSub starSlash (pstrip line) = true) :
    processLine st i line = ⟨st.braceDepth, false, st.issues⟩ := by
  simp only [processLine]
  rw [if_pos h]

/-- Claim C4 witness: the line `struct Foo { /* note */` from inside a
block comment at depth 3: its `{` is ignored and the comment state is
cleared. -/
theorem claim_C4_witness :
    containsSub starSlash (pstrip (toL "struct Foo \x7b /* note */")) = true ∧
    processLine ⟨3, true, []⟩ 2 (toL "struct Foo \x7b /* note */") = ⟨3, false, []⟩ :=
  ⟨by decide, claim_C4 ⟨3, true, []⟩ 2 (toL "struct Foo \x7b /* note */") (by decide)⟩

/-- Claim C6 (corrected): an unreadable root directory is NOT fatal —
`os.walk` with its default `onerror=None` swallows the error, so the run
completes successfully with a report consisting of just the completion
marker, whatever the state of the individual files. -/
theorem claim_C6 (contents : List Char → Option (List Char)) :
    runScanner ⟨none, contents⟩ = Except.ok [[], markerLine] := rfl

/-- Claim C6 counterexample: with the root directory unreadable (and every
file unreadable too), the run does not fail: it returns the empty report
followed by the completion marker, refuting the claim that the error is
propagated rather than degraded into an empty report. -/
theorem claim_C6_counterexample :
    runScanner ⟨none, fun _ => none⟩ = Except.ok [[], markerLine] := rfl

/-- Claim C7: the line `let s = "{"` processed at depth 0 leaves the state
unchanged — the brace inside the string literal is masked away before
counting — and matches no executable pattern, so no issue is recorded. -/
theorem claim_C7 :
    processLine ⟨0, false, []⟩ 1 (toL "let s = \"\x7b\"") = ⟨0, false, []⟩ ∧
    maskStrings (pstrip (toL "let s = \"\x7b\"")) = toL "let s = \"\"" ∧
    isExec (pstrip (toL "let s = \"\x7b\"")) = false := by decide

/-- Claim C10: the classification gate tests `depth == 0` exactly, so at
any nonzero pre-update depth — including the negative depths reachable on
malformed input with more `}` than `{` — the line is never classified and
the issue list is unchanged. -/
theorem claim_C10 (st : ScanState) (i : Nat) (line : List Char)
    (h : st.braceDepth ≠ 0) :
    (processLine st i line).issues = st.issues := by
  rw [processLine_issues_eq]
  rw [if_neg]
  intro hc
  exact h hc.2.2.2.2.2.1

/-- Claim C10 witness: at pre-update depth `-1` the line `print("x")` is
not reported. -/
theorem claim_C10_witness :
    ((-1 : Int) ≠ 0) ∧ (processLine ⟨-1, false, []⟩ 1 (toL "print(\"x\")")).issues = [] :=
  ⟨by decide, claim_C10 ⟨-1, false, []⟩ 1 (toL "print(\"x\")") (by decide)⟩

/-! ## Masked/unmasked matching agreement (claim C5)

Every executable-statement pattern is anchored at the start of the line
and can only consume characters that are not a double quote, while string
masking never alters the text before the first double quote.  Hence the
match outcome on the trimmed line and on its string-masked form always
agree. -/

/-- A tail that is empty or starts with a double quote — the shape of what
can follow the quote-free prefix of a line, both in the raw line and in
its masked form. -/
def qTail (r : List Char) : Prop := r = [] ∨ ∃ t, r = '"' :: t

theorem afterPrefix_append_qTail (kw : List Char) (hkw : '"' ∉ kw) :
    ∀ (a r : List Char), qTail r →
      afterPrefix kw (a ++ r) = (afterPrefix kw a).map (· ++ r) := by
  induction kw with
  | nil => intro a r _; rfl
  | cons k ks ih =>
    intro a r hr
    have hk : k ≠ '"' := fun e => hkw (e ▸ List.mem_cons_self _ _)
    have hks : '"' ∉ ks := fun hm => hkw (List.mem_cons_of_mem _ hm)
    cases a with
    | nil =>
      rcases hr with h | ⟨t, h⟩ <;> subst h
      · rfl
      · simp [afterPrefix, hk]
    | cons x xs =>
      by_cases h : k = x
      · subst h
        simpa [afterPrefix] using ih hks xs r hr
      · simp [afterPrefix, h]

theorem kwThen_append_qTail (kw : List Char) (p : Char → Bool)
    (hkw : '"' ∉ kw) (hp : p '"' = false) (a r r' : List Char)
    (hr : qTail r) (hr' : qTail r') :
    kwThen kw p (a ++ r) = kwThen kw p (a ++ r') := by
  unfold kwThen
  rw [afterPrefix_append_qTail kw hkw a r hr,
      afterPrefix_append_qTail kw hkw a r' hr']
  cases h : afterPrefix kw a with
  | none => rfl
  | some t =>
    cases t with
    | cons c ts => rfl
    | nil =>
      simp only [Option.map_some', List.nil_append]
      rcases hr with h1 | ⟨t1, h1⟩ <;> rcases hr' with h2 | ⟨t2, h2⟩ <;>
        subst h1 <;> subst h2 <;> simp [hp]

theorem kwWsThen_append_qTail (kw : List Char) (p : Char → Bool)
    (hkw : '"' ∉ kw) (hp : p '"' = false) (a r r' : List Char)
    (hr : qTail r) (hr' : qTail r') :
    kwWsThen kw p (a ++ r) = kwWsThen kw p (a ++ r') := by
  unfold kwWsThen
  rw [afterPrefix_append_qTail kw hkw a r hr,
      afterPrefix_append_qTail kw hkw a r' hr']
  cases h : afterPrefix kw a with
  | none => rfl
  | some t =>
    simp only [Option.map_some', List.dropWhile_append]
    have hq : isPySpace '"' = false := by decide
    have tailDrop : ∀ s : List Char, qTail s →
        (s.dropWhile isPySpace = s) := by
      intro s hs
      rcases hs with h1 | ⟨t1, h1⟩ <;> subst h1
      · rfl
      · simp [List.dropWhile_cons, hq]
    by_cases he : (t.dropWhile isPySpace).isEmpty
    · rw [if_pos he, if_pos he, tailDrop r hr, tailDrop r' hr']
      rcases hr with h1 | ⟨t1, h1⟩ <;> rcases hr' with h2 | ⟨t2, h2⟩ <;>
        subst h1 <;> subst h2 <;> simp [hp]
    · rw [if_neg he, if_neg he]
      cases hdw : t.dropWhile isPySpace with
      | nil => rw [hdw] at he; simp at he
      | cons c cs => rfl

/-- `maskGo` in in-string mode always produces output starting with the
reopened quote. -/
theorem maskGo_true_head (t : List Char) :
    ∀ acc, ∃ u, maskGo true acc t = '"' :: u := by
  induction t with
  | nil => intro acc; exact ⟨acc.reverse, rfl⟩
  | cons c cs ih =>
    intro acc
    by_cases h : c = '"'
    · subst h; exact ⟨'"' :: maskGo false [] cs, by simp [maskGo]⟩
    · simpa [maskGo, h] using ih (c :: acc)

/-- Characters that are not the double quote, as a Bool predicate. -/
def notQuote (c : Char) : Bool := !(c = '"')

/-- Masking preserves the quote-free prefix of the line and continues with
a (possibly rewritten) tail that is empty or starts with a quote. -/
theorem maskStrings_split (l : List Char) :
    ∃ r, maskStrings l = l.takeWhile notQuote ++ r ∧ qTail r := by
  induction l with
  | nil => exact ⟨[], rfl, Or.inl rfl⟩
  | cons c cs ih =>
    by_cases h : c = '"'
    · subst h
      obtain ⟨u, hu⟩ := maskGo_true_head cs []
      refine ⟨'"' :: u, ?_, Or.inr ⟨u, rfl⟩⟩
      simp [maskStrings, maskGo, List.takeWhile, notQuote] at hu ⊢
      exact hu
    · obtain ⟨r, hm, hr⟩ := ih
      refine ⟨r, ?_, hr⟩
      simp only [maskStrings, maskGo, if_neg h, List.takeWhile, notQuote]
      simp only [maskStrings] at hm
      simp [h, hm]

/-- The tail of a line after its quote-free prefix is empty or starts with
a quote. -/
theorem dropWhile_notQuote_qTail (l : List Char) : qTail (l.dropWhile notQuote) := by
  induction l with
  | nil => exact Or.inl rfl
  | cons c cs ih =>
    by_cases h : c = '"'
    · subst h; exact Or.inr ⟨cs, by simp [List.dropWhile, notQuote]⟩
    · simpa [List.dropWhile, notQuote, h] using ih

/-- The classification outcome only depends on the quote-free prefix. -/
theorem isExec_append_qTail (a r r' : List Char) (hr : qTail r) (hr' : qTail r') :
    isExec (a ++ r) = isExec (a ++ r') := by
  unfold isExec
  rw [kwWsThen_append_qTail (toL "print") isLParen (by decide) (by decide) a r r' hr hr',
      kwWsThen_append_qTail (toL "debugPrint") isLParen (by decide) (by decide) a r r' hr hr',
      kwWsThen_append_qTail (toL "Task") isLBrace (by decide) (by decide) a r r' hr hr',
      kwThen_append_qTail (toL "Task.") isWordChar (by decide) (by decide) a r r' hr hr',
      kwThen_append_qTail (toL "if") isPySpace (by decide) (by decide) a r r' hr hr',
      kwThen_append_qTail (toL "guard") isPySpace (by decide) (by decide) a r r' hr hr',
      kwThen_append_qTail (toL "switch") isPySpace (by decide) (by decide) a r r' hr hr',
      kwThen_append_qTail (toL "for") isPySpace (by decide) (by decide) a r r' hr hr',
      kwThen_append_qTail (toL "while") isPySpace (by decide) (by decide) a r r' hr hr',
      kwThen_append_qTail (toL "repeat") isPySpace (by decide) (by decide) a r r' hr hr',
      kwWsThen_append_qTail (toL "do") isLBrace (by decide) (by decide) a r r' hr hr',
      kwThen_append_qTail (toL "return") isPySpace (by decide) (by decide) a r r' hr hr',
      kwThen_append_qTail (toL "try") isPySpace (by decide) (by decide) a r r' hr hr',
      kwThen_append_qTail (toL "await") isPySpace (by decide) (by decide) a r r' hr hr',
      kwWsThen_append_qTail (toL "fatalError") isLParen (by decide) (by decide) a r r' hr hr',
      kwWsThen_append_qTail (toL "precondition") isLParen (by decide) (by decide) a r r' hr hr',
      kwWsThen_append_qTail (toL "assert") isLParen (by decide) (by decide) a r r' hr hr']

/-- Claim C5: the code matches the executable-statement patterns against
the trimmed but UNMASKED line, while the spec says the trimmed,
string-masked line is classified; the two agree on every input line,
because every pattern is anchored at the start and no pattern can consume
a double quote, and masking never changes the text before the first
quote. -/
theorem claim_C5 (stripped : List Char) :
    isExec (maskStrings stripped) = isExec stripped := by
  obtain ⟨r, hm, hr⟩ := maskStrings_split stripped
  rw [hm]
  conv_rhs => rw [(List.takeWhile_append_dropWhile (p := notQuote) (l := stripped)).symm]
  exact isExec_append_qTail _ r _ hr (dropWhile_notQuote_qTail stripped)

/-! ## Report rendering (claim C8) -/

theorem headerLine_head (p : List Char) : (headerLine p).head? = some '*' := rfl

theorem issueLine_head (n : Nat) (t : List Char) : (issueLine n t).head? = some ' ' := rfl

theorem markerLine_head : markerLine.head? = some '-' := rfl

theorem headerLine_ne_marker (p : List Char) : headerLine p ≠ markerLine := by
  intro h
  have h2 := congrArg List.head? h
  rw [headerLine_head, markerLine_head] at h2
  exact absurd h2 (by decide)

theorem issueLine_ne_marker (n : Nat) (t : List Char) : issueLine n t ≠ markerLine := by
  intro h
  have h2 := congrArg List.head? h
  rw [issueLine_head, markerLine_head] at h2
  exact absurd h2 (by decide)

/-- Every text recorded by the scan loop is truncated to 120 characters. -/
theorem scanFrom_issues_short (lines : List (List Char)) :
    ∀ (st : ScanState) (i : Nat),
      (∀ x ∈ st.issues, x.2.length ≤ 120) →
      ∀ x ∈ (scanFrom st i lines).issues, x.2.length ≤ 120 := by
  induction lines with
  | nil => intro st i h; exact h
  | cons l ls ih =>
    intro st i h
    refine ih _ _ ?_
    intro x hx
    rw [processLine_issues_eq] at hx
    split at hx
    · rcases List.mem_append.1 hx with hx1 | hx1
      · exact h x hx1
      · have := List.mem_singleton.1 hx1
        subst this
        show ((pstrip l).take 120).length ≤ 120
        rw [List.length_take]
        exact Nat.min_le_left _ _
    · exact h x hx

theorem scanLines_issues_short (lines : List (List Char)) :
    ∀ x ∈ (scanLines lines).issues, x.2.length ≤ 120 :=
  scanFrom_issues_short lines ⟨0, false, []⟩ 1 (by intro x hx; cases hx)

/-- Claim C8: the report is the concatenation, in discovery order, of one
block per file — nothing for a file without issues, else a header line
followed by one `  Line n: text` line per issue — and it is terminated by
exactly one occurrence of the completion-marker line; every issue text
has been truncated to at most 120 characters. -/
theorem claim_C8 (files : List (List Char × List (List Char))) :
    reportLines files = (files.flatMap fun pf => fileBlock pf.1 pf.2) ++ [[], markerLine] ∧
    (∀ pf ∈ files, (scanLines pf.2).issues = [] → fileBlock pf.1 pf.2 = []) ∧
    (∀ pf ∈ files, fileBlock pf.1 pf.2 = [] ∨
       fileBlock pf.1 pf.2 =
         headerLine pf.1 :: ((scanLines pf.2).issues.map fun x => issueLine x.1 x.2)) ∧
    (∀ pf ∈ files, ∀ x ∈ (scanLines pf.2).issues, x.2.length ≤ 120) ∧
    (reportLines files).count markerLine = 1 := by
  refine ⟨rfl, ?_, ?_, ?_, ?_⟩
  · intro pf _ h
    simp [fileBlock, h]
  · intro pf _
    by_cases h : ((scanLines pf.2).issues).isEmpty
    · left; simp [fileBlock, h]
    · right; simp [fileBlock, h]
  · intro pf _
    exact scanLines_issues_short pf.2
  · have hblocks : markerLine ∉ files.flatMap fun pf => fileBlock pf.1 pf.2 := by
      intro hmem
      obtain ⟨pf, _, hin⟩ := List.mem_flatMap.1 hmem
      revert hin
      simp only [fileBlock]
      split
      · intro hin; cases hin
      · intro hin
        rcases List.mem_cons.1 hin with h1 | h1
        · exact headerLine_ne_marker pf.1 h1.symm
        · obtain ⟨x, _, hx⟩ := List.mem_map.1 h1
          exact issueLine_ne_marker x.1 x.2 hx
    rw [reportLines, List.count_append,
        List.count_eq_zero.2 hblocks]
    decide

/-- Claim C8 witness: a two-file tree where `a.swift` is issue-free (so it
contributes no block) and the report contains the completion marker
exactly once. -/
theorem claim_C8_witness :
    fileBlock (toL "a.swift") [toL "import M"] = [] ∧
    (reportLines [(toL "a.swift", [toL "import M"]),
        (toL "b.swift", [toL "print(\"x\")"])]).count markerLine = 1 :=
  ⟨(claim_C8 [(toL "a.swift", [toL "import M"]),
        (toL "b.swift", [toL "print(\"x\")"])]).2.1
      (toL "a.swift", [toL "import M"]) (by decide) (by decide),
   (claim_C8 [(toL "a.swift", [toL "import M"]),
        (toL "b.swift", [toL "print(\"x\")"])]).2.2.2.2⟩

/-! ## Determinism of discovery order (claim C9) -/

theorem lexLe_total : ∀ a b : List Char, lexLe a b = true ∨ lexLe b a = true := by
  intro a
  induction a with
  | nil => intro b; left; rfl
  | cons x xs ih =>
    intro b
    cases b with
    | nil => right; rfl
    | cons y ys =>
      rcases lt_trichotomy x y with h | h | h
      · left; simp [lexLe, h]
      · subst h
        simpa [lexLe, lt_irrefl] using ih ys
      · right; simp [lexLe, h]

theorem lexLe_trans : ∀ a b c : List Char,
    lexLe a b = true → lexLe b c = true → lexLe a c = true
  | [], _, _, _, _ => rfl
  | _ :: _, [], _, h, _ => by simp [lexLe] at h
  | _ :: _, _ :: _, [], _, h => by simp [lexLe] at h
  | x :: xs, y :: ys, z :: zs, h1, h2 => by
    simp only [lexLe] at h1 h2 ⊢
    rcases lt_trichotomy x y with hxy | hxy | hxy
    · rcases lt_trichotomy y z with hyz | hyz | hyz
      · have hxz : x < z := lt_trans hxy hyz
        simp [hxz]
      · subst hyz; simp [hxy]
      · rw [if_neg (lt_asymm hyz), if_pos hyz] at h2
        simp at h2
    · subst hxy
      rw [if_neg (lt_irrefl x), if_neg (lt_irrefl x)] at h1
      rcases lt_trichotomy x z with hxz | hxz | hxz
      · simp [hxz]
      · subst hxz
        rw [if_neg (lt_irrefl x), if_neg (lt_irrefl x)] at h2 ⊢
        exact lexLe_trans xs ys zs h1 h2
      · rw [if_neg (lt_asymm hxz), if_pos hxz] at h2
        simp at h2
    · rw [if_neg (lt_asymm hxy), if_pos hxy] at h1
      simp at h1

theorem lexLe_antisymm : ∀ a b : List Char,
    lexLe a b = true → lexLe b a = true → a = b
  | [], [], _, _ => rfl
  | [], _ :: _, _, h => by simp [lexLe] at h
  | _ :: _, [], h, _ => by simp [lexLe] at h
  | x :: xs, y :: ys, h1, h2 => by
    simp only [lexLe] at h1 h2
    rcases lt_trichotomy x y with hxy | hxy | hxy
    · rw [if_neg (lt_asymm hxy), if_pos hxy] at h2
      simp at h2
    · subst hxy
      rw [if_neg (lt_irrefl x), if_neg (lt_irrefl x)] at h1 h2
      rw [lexLe_antisymm xs ys h1 h2]
    · rw [if_neg (lt_asymm hxy), if_pos hxy] at h1
      simp at h1

instance : IsTotal (List Char) lexR := ⟨fun a b => lexLe_total a b⟩
instance : IsTrans (List Char) lexR := ⟨fun a b c => lexLe_trans a b c⟩
instance : IsAntisymm (List Char) lexR := ⟨fun a b => lexLe_antisymm a b⟩

/-- Sorting makes the processing order independent of the enumeration
order produced by the directory walk. -/
theorem sortPaths_perm_eq (l1 l2 : List (List Char)) (h : l1.Perm l2) :
    sortPaths l1 = sortPaths l2 := by
  apply List.eq_of_perm_of_sorted (r := lexR)
  · exact (List.perm_insertionSort lexR l1).trans
      (h.trans (List.perm_insertionSort lexR l2).symm)
  · exact List.sorted_insertionSort lexR l1
  · exact List.sorted_insertionSort lexR l2

/-- Claim C9: the scanner is deterministic with respect to the walk's
enumeration order: any two enumerations of the same unmodified file tree
(same multiset of paths, same contents) produce byte-identical reports,
because the discovered paths are sorted lexicographically before
processing and each per-file scan is a pure function of the content. -/
theorem claim_C9 (e1 e2 : List (List Char))
    (contents : List Char → Option (List Char)) (h : e1.Perm e2) :
    runScanner ⟨some e1, contents⟩ = runScanner ⟨some e2, contents⟩ := by
  have hs : sortPaths (e1.filter hasSwiftSuffix) = sortPaths (e2.filter hasSwiftSuffix) :=
    sortPaths_perm_eq _ _ (h.filter hasSwiftSuffix)
  simp only [runScanner, Option.getD_some]
  rw [hs]

/-- Claim C9 witness: enumerating the same two files in either order
yields the same report. -/
theorem claim_C9_witness :
    ([toL "b.swift", toL "a.swift"] : List (List Char)).Perm
        [toL "a.swift", toL "b.swift"] ∧
    runScanner ⟨some [toL "b.swift", toL "a.swift"], fun _ => some []⟩ =
      runScanner ⟨some [toL "a.swift", toL "b.swift"], fun _ => some []⟩ :=
  ⟨List.Perm.swap (toL "a.swift") (toL "b.swift") [],
   claim_C9 [toL "b.swift", toL "a.swift"] [toL "a.swift", toL "b.swift"]
     (fun _ => some []) (List.Perm.swap (toL "a.swift") (toL "b.swift") [])⟩
